import Mathlib

/-!
Verification development for the astra-visualizer repository.

The embedding covers `src/remote.py` (remote command transports and the
transport factory) and `src/dashboard.py` (the `SystemProfiler` telemetry
poller: parsing, delta arithmetic, and bounded history buffers).

Modelling conventions:
* Python `float` arithmetic is modelled with exact rationals (`ℚ`);
  Python `int` with `Int`/`Nat`.
* Fallible operations (exceptions in Python) are modelled with
  `Except`/`Option`.
* The external process invocations of the transports are modelled by an
  oracle function passed as an argument; the embedding records which
  remote segments were actually executed.
* `collections.deque(maxlen = N)` with `append` is modelled by
  `pushBounded N`, which keeps the last `N` appended elements.
* The background poll loop is modelled as a step function `tick` on a
  `ProfilerState`; the body of the locked section is one atomic step,
  matching the fact that all per-tick buffer mutations in the source
  happen under a single lock acquisition.
-/

deriving instance DecidableEq for Except

namespace Astra

/-! ## Embedding of src/remote.py -/

/-- `RemoteCommandError(cmd, output)` from src/remote.py: a typed failure
carrying the failed command text and captured output/diagnostic text. -/
structure RemoteCommandError where
  cmd : String
  output : String
deriving Repr, DecidableEq

/-- The two concrete transport variants produced by
`remote_command_runner_factory`: `ADBCommandRunner(device_id, timeout)` and
`SSHCommandRunner(board_ip, timeout)`. -/
inductive CommandRunner where
  | adb (deviceId : String) (timeout : Int)
  | ssh (boardIp : String) (timeout : Int)
deriving Repr, DecidableEq

/-! ### Executable string primitives

Python string operations (`strip`, `split`, `splitlines`, substring
containment) are embedded as structural recursions over `List Char`, so
that every definition reduces inside the kernel. -/

/-- Python `str.strip()` on character lists: drop leading and trailing
whitespace. -/
def stripChars (l : List Char) : List Char :=
  ((l.dropWhile Char.isWhitespace).reverse.dropWhile Char.isWhitespace).reverse

/-- Python `str.strip()`. -/
def pyStrip (s : String) : String :=
  ⟨stripChars s.toList⟩

/-- Split a character list at every character satisfying `p`, keeping empty
pieces (the behaviour of Python `str.split(sep)` for a one-character
separator, and of `str.splitlines()` for newline-separated text). -/
def splitBy (p : Char → Bool) : List Char → List (List Char)
  | [] => [[]]
  | c :: rest =>
      if p c then [] :: splitBy p rest
      else
        match splitBy p rest with
        | [] => [[c]]
        | piece :: more => (c :: piece) :: more

/-- Fuelled splitting of a character list on a multi-character separator,
non-overlapping and left-to-right, keeping empty pieces (Python
`str.split(sep)`).  The fuel is instantiated with the list length, which
bounds the recursion depth. -/
def splitSubAux (sep : List Char) : Nat → List Char → List (List Char)
  | _, [] => [[]]
  | 0, l => [l]
  | fuel + 1, c :: rest =>
      if sep.isPrefixOf (c :: rest) then
        [] :: splitSubAux sep fuel ((c :: rest).drop sep.length)
      else
        match splitSubAux sep fuel rest with
        | [] => [[c]]
        | piece :: more => (c :: piece) :: more

/-- Python `s.split(sep)` for a nonempty separator string. -/
def pySplitOn (s : String) (sep : String) : List String :=
  (splitSubAux sep.toList s.toList.length s.toList).map (fun l => ⟨l⟩)

/-- Membership of `sub` as a contiguous substring of `hay`, over character
lists.  This models Python's `op in cmd` substring test. -/
def containsSub (hay sub : List Char) : Bool :=
  match hay with
  | [] => sub.isEmpty
  | _ :: t => sub.isPrefixOf hay || containsSub t sub

/-- Python's `op in cmd` on strings. -/
def strContains (s sub : String) : Bool :=
  containsSub s.toList sub.toList

/-- The regex `^SL16x\d+$` (from `ADB_ID_PATTERN` in src/remote.py, applied
with `fullmatch`): the fixed prefix `SL16x` followed by one or more digits,
matching the whole string. -/
def isAdbDeviceId (s : String) : Bool :=
  match s.toList with
  | 'S' :: 'L' :: '1' :: '6' :: 'x' :: rest => !rest.isEmpty && rest.all Char.isDigit
  | _ => false

/-- One octet of `IPV4_PATTERN` in src/remote.py:
`25[0-5] | 2[0-4]\d | 1\d{2} | [1-9]?\d`. -/
def ipv4Octet (s : String) : Bool :=
  match s.toList with
  | [c] => c.isDigit
  | [c, d] => ('1' ≤ c && c ≤ '9') && d.isDigit
  | [a, b, c] =>
      (a == '2' && b == '5' && ('0' ≤ c && c ≤ '5')) ||
      (a == '2' && ('0' ≤ b && b ≤ '4') && c.isDigit) ||
      (a == '1' && b.isDigit && c.isDigit)
  | _ => false

/-- The regex `^(octet\.){3}octet$` (`IPV4_PATTERN`, applied with
`fullmatch`).  Since an octet contains no dot, the whole string matches the
anchored regex iff splitting on `"."` yields exactly four valid octets. -/
def isIPv4Address (s : String) : Bool :=
  match (splitBy (fun c => c == '.') s.toList).map (fun l => (⟨l⟩ : String)) with
  | [a, b, c, d] => ipv4Octet a && ipv4Octet b && ipv4Octet c && ipv4Octet d
  | _ => false

/-- `remote_command_runner_factory(board_address, timeout)` from
src/remote.py: `None` gives the default ADB device `"SL16x0"`; a string
fully matching `ADB_ID_PATTERN` gives an `ADBCommandRunner` for it; a string
fully matching `IPV4_PATTERN` gives an `SSHCommandRunner`; anything else
raises `ValueError` naming the malformed address. -/
def remote_command_runner_factory (boardAddress : Option String) (timeout : Int) :
    Except String CommandRunner :=
  match boardAddress with
  | none => .ok (.adb "SL16x0" timeout)
  | some a =>
      if isAdbDeviceId a then .ok (.adb a timeout)
      else if isIPv4Address a then .ok (.ssh a timeout)
      else .error ("Invalid board address format: expected ADB device ID or IPv4 address, got " ++ a)

/-- The shell metacharacter denylist of `ADBCommandRunner.runCmd`. -/
def adbMetaOps : List String := ["|", ";", "||", "`", "$(", "<", ">"]

/-- `any(op in cmd for op in [...])` in `ADBCommandRunner.runCmd`. -/
def hasUnsupportedSyntax (cmd : String) : Bool :=
  adbMetaOps.any (fun op => strContains cmd op)

/-- The sequential execution of command segments in
`ADBCommandRunner.runCmd`: each segment is handed to the remote-invocation
oracle `exec` in order; the first failure aborts.  Returns the collected
outputs (or the first error) together with the list of segments actually
handed to the oracle. -/
def runSegments (exec : String → Except RemoteCommandError String) :
    List String → Except RemoteCommandError (List String) × List String
  | [] => (.ok [], [])
  | p :: ps =>
      match exec p with
      | .error e => (.error e, [p])
      | .ok r =>
          match runSegments exec ps with
          | (.error e, att) => (.error e, p :: att)
          | (.ok rs, att) => (.ok (r :: rs), p :: att)

/-- `ADBCommandRunner.runCmd(cmd)` from src/remote.py, for a string
command.  Rejects commands containing any denylisted shell metacharacter
before any remote invocation; otherwise splits on the literal `"&&"`,
strips each part, executes each part as a separate invocation via the
oracle, and joins the outputs with `"\n"`.  The second component records
the segments actually executed remotely. -/
def ADBCommandRunner.runCmd (exec : String → Except RemoteCommandError String)
    (cmd : String) : Except RemoteCommandError String × List String :=
  if hasUnsupportedSyntax cmd then
    (.error ⟨cmd, "Unsupported shell syntax in ADB runner."⟩, [])
  else
    let parts := (pySplitOn cmd "&&").map pyStrip
    let res := runSegments exec parts
    (res.1.map (fun rs => String.intercalate "\n" rs), res.2)

/-! ## Embedding of src/dashboard.py: parsing -/

/-- Python `str.splitlines()` followed by dropping blank lines, as in
`parse_stats`: `[line for line in raw.splitlines() if line.strip()]`.
Lines are split on `"\n"` (the claims involve no `"\r"`), and a line is
blank iff stripping whitespace leaves the empty string. -/
def nonBlankLines (raw : String) : List String :=
  ((splitBy (fun c => c == '\n') raw.toList).map (fun l => (⟨l⟩ : String))).filter
    (fun l => pyStrip l ≠ "")

/-- Python `str.split()` with no argument (after an outer strip): split on
runs of whitespace, discarding empty pieces. -/
def tokens (s : String) : List String :=
  ((splitBy Char.isWhitespace s.toList).map (fun l => (⟨l⟩ : String))).filter
    (fun t => t ≠ "")

/-- Digit accumulation of Python `int(str)`: one or more digits with single
underscores allowed between digits. `acc` holds the value of the digits
consumed so far. -/
def pyDigitsAux (acc : Nat) : List Char → Option Nat
  | [] => some acc
  | '_' :: c :: rest =>
      if c.isDigit then pyDigitsAux (acc * 10 + (c.toNat - 48)) rest else none
  | c :: rest =>
      if c.isDigit then pyDigitsAux (acc * 10 + (c.toNat - 48)) rest else none

/-- The digit part of Python `int(str)`: must start with a digit. -/
def pyDigitsStart : List Char → Option Nat
  | [] => none
  | c :: rest => if c.isDigit then pyDigitsAux (c.toNat - 48) rest else none

/-- Sign handling of Python `int(str)`. -/
def pyIntCore : List Char → Option Int
  | '+' :: rest => (pyDigitsStart rest).map Int.ofNat
  | '-' :: rest => (pyDigitsStart rest).map (fun n => -(n : Int))
  | l => (pyDigitsStart l).map Int.ofNat

/-- Python `int(str)`: strips surrounding whitespace, then an optional sign
and a nonempty digit string (underscores permitted between digits).
Returns `none` where Python raises `ValueError`. -/
def pyInt (s : String) : Option Int :=
  pyIntCore (pyStrip s).toList

/-- A parsed snapshot of remote counters (the result of `parse_stats`):
per-label CPU jiffy counters in positional order, available memory in GB,
and the cumulative accelerator inference time in microseconds. -/
structure RawStats where
  cpu : List (String × List Int)
  memAvailableGB : ℚ
  inferTimeUs : Int
deriving Repr, DecidableEq

/-- Failure modes of `parse_stats`: the `assert len(raw_data) >= 7` (too
few non-blank lines), or an `int(...)` conversion failure. -/
inductive ParseError where
  | tooFewLines (n : Nat)
  | badInt (what : String)
deriving Repr, DecidableEq

/-- Option-valued traversal of a list: the whole list converts iff every
element does, failing at the first failure (the semantics of a Python list
comprehension whose body may raise). -/
def optMapList {α β : Type} (f : α → Option β) : List α → Option (List β)
  | [] => some []
  | a :: l =>
      match f a with
      | none => none
      | some b =>
          match optMapList f l with
          | none => none
          | some bs => some (b :: bs)

/-- One CPU counter line of `parse_stats`:
`parts = line.strip().split(); parts[0] ↦ [int(t) for t in parts[1:]]`. -/
def parseCpuLine (line : String) : Option (String × List Int) :=
  match tokens (pyStrip line) with
  | [] => none
  | t :: rest => (optMapList pyInt rest).map (fun ns => (t, ns))

/-- Insertion into the Python dict built by the comprehension in
`parse_stats`: an existing key is overwritten in place, a new key is
appended at the end (Python dicts preserve insertion order). -/
def dictInsert (d : List (String × List Int)) (k : String) (v : List Int) :
    List (String × List Int) :=
  if d.any (fun e => e.1 == k) then
    d.map (fun e => if e.1 == k then (k, v) else e)
  else d ++ [(k, v)]

/-- The CPU dict of `parse_stats` built from the parsed first five lines. -/
def buildCpuDict (entries : List (String × List Int)) : List (String × List Int) :=
  entries.foldl (fun d e => dictInsert d e.1 e.2) []

/-- The body of `SystemProfiler.parse_stats` after the non-blank lines have
been extracted: asserts at least 7 lines, takes the first 5 as CPU counter
lines, line 5 (0-based) as available memory in kB converted to GB by
dividing by 1048576, and line 6 as the cumulative inference time in µs. -/
def parse_statsAux (raw_data : List String) : Except ParseError RawStats :=
  if raw_data.length < 7 then .error (.tooFewLines raw_data.length)
  else
    match optMapList parseCpuLine (raw_data.take 5) with
    | none => .error (.badInt "cpu counters")
    | some entries =>
        match pyInt (pyStrip (raw_data.getD 5 "")), pyInt (pyStrip (raw_data.getD 6 "")) with
        | some mem, some npu =>
            .ok ⟨buildCpuDict entries, (mem : ℚ) / 1048576, npu⟩
        | none, _ => .error (.badInt "MemAvailable")
        | _, none => .error (.badInt "infer_time_us")

/-- `SystemProfiler.parse_stats(raw)` from src/dashboard.py. -/
def parse_stats (raw : String) : Except ParseError RawStats :=
  parse_statsAux (nonBlankLines raw)

/-! ## Embedding of src/dashboard.py: delta arithmetic -/

/-- `total = sum(c2 - c1 for c1, c2 in zip(prev, curr))` in
`SystemProfiler.compute_cpu_usage`. -/
def totalDelta (p c : List Int) : Int :=
  ((p.zip c).map (fun pc => pc.2 - pc.1)).sum

/-- `idle = (curr[3] + curr[4]) - (prev[3] + prev[4])` in
`SystemProfiler.compute_cpu_usage`: the delta of the idle (index 3) and
io-wait (index 4) categories. -/
def idleDelta (p c : List Int) : Int :=
  (c.getD 3 0 + c.getD 4 0) - (p.getD 3 0 + p.getD 4 0)

/-- The per-label body of `SystemProfiler.compute_cpu_usage`:
`usage = 100 * (1 - idle / total) if total > 0 else 0`. -/
def cpuUsageOne (p c : List Int) : ℚ :=
  if 0 < totalDelta p c then
    100 * (1 - (idleDelta p c : ℚ) / (totalDelta p c : ℚ))
  else 0

/-- `SystemProfiler.compute_cpu_usage(prev_stats, curr_stats)`: iterates
over the labels of the previous sample (in order) and computes the usage
for each from the previous and current counter sequences. -/
def compute_cpu_usage (prev curr : List (String × List Int)) : List (String × ℚ) :=
  prev.map (fun e => (e.1, cpuUsageOne e.2 ((curr.lookup e.1).getD [])))

/-- The NPU usage value computed in the poll loop:
`100 * Δinfer_time_us / (Δt_s * 1_000_000)`, then clamped by
`min(max(0.0, x), 100.0)`. -/
def npuUsageVal (prevUs currUs : Int) (dtS : ℚ) : ℚ :=
  min (max 0 (100 * ((currUs : ℚ) - (prevUs : ℚ)) / (dtS * 1000000))) 100

/-! ## Embedding of src/dashboard.py: bounded history and the poll loop -/

/-- `collections.deque(maxlen = N).append(x)`: keep the last `N` elements
(appending to a full deque evicts the oldest entry; with `N = 0` nothing is
retained). -/
def pushBounded (N : Nat) (buf : List ℚ) (x : ℚ) : List ℚ :=
  ((buf ++ [x])).drop ((buf.length + 1) - N)

/-- One `cpu_usage.items()` iteration of the locked section of the poll
loop: lazily create the per-label deque on first sight of the label, then
append the value. -/
def appendOne (N : Nat) (hist : List (String × List ℚ)) (label : String) (v : ℚ) :
    List (String × List ℚ) :=
  if hist.any (fun e => e.1 == label) then
    hist.map (fun e => if e.1 == label then (e.1, pushBounded N e.2 v) else e)
  else hist ++ [(label, pushBounded N [] v)]

/-- The full `for cpu, val in cpu_usage.items()` loop of the locked
section. -/
def appendCpu (N : Nat) (hist : List (String × List ℚ)) (usage : List (String × ℚ)) :
    List (String × List ℚ) :=
  usage.foldl (fun h lv => appendOne N h lv.1 lv.2) hist

/-- The mutable state of a `SystemProfiler`: capacity, the startup
`_total_mem_gb` constant, the shared timestamp deque, the lazily-keyed
per-label CPU deques, the NPU deque, the two memory deques, and the
previous-sample cache (a parsed sample plus its timestamp, or nothing
before the first tick). -/
structure ProfilerState where
  historyLength : Nat
  totalMemGB : ℚ
  timePoints : List ℚ
  cpuHist : List (String × List ℚ)
  npuHist : List ℚ
  memAmt : List ℚ
  memPct : List ℚ
  prev : Option (RawStats × ℚ)
deriving Repr, DecidableEq

/-- The freshly constructed profiler: all buffers empty, no previous
sample. -/
def initState (N : Nat) (totalMemGB : ℚ) : ProfilerState :=
  ⟨N, totalMemGB, [], [], [], [], [], none⟩

/-- One iteration of `poll_loop` in `SystemProfiler._start_polling_thread`,
given the parsed current sample `curr` and its client-side timestamp `ts`:
if a previous sample exists, compute the CPU/NPU/memory usage values and
append them (and the timestamp) to the bounded buffers — the whole locked
section is one atomic step; in every case replace the previous-sample
cache with `(curr, ts)`. -/
def tick (st : ProfilerState) (curr : RawStats) (ts : ℚ) : ProfilerState :=
  match st.prev with
  | none => { st with prev := some (curr, ts) }
  | some (p, pts) =>
      let N := st.historyLength
      let cpuUsage := compute_cpu_usage p.cpu curr.cpu
      let npuUsage := npuUsageVal p.inferTimeUs curr.inferTimeUs (ts - pts)
      let memUsed := st.totalMemGB - curr.memAvailableGB
      let memUsedPercent := memUsed / st.totalMemGB * 100
      { st with
        timePoints := pushBounded N st.timePoints ts
        cpuHist := appendCpu N st.cpuHist cpuUsage
        npuHist := pushBounded N st.npuHist npuUsage
        memAmt := pushBounded N st.memAmt memUsed
        memPct := pushBounded N st.memPct memUsedPercent
        prev := some (curr, ts) }

/-- A finite run of the poll loop over a sequence of parsed samples with
their timestamps. -/
def runTicks (st : ProfilerState) (samples : List (RawStats × ℚ)) : ProfilerState :=
  samples.foldl (fun s p => tick s p.1 p.2) st

/-- `SystemProfiler.get_cpu_history`: a copy of the shared timestamps and
of every per-label CPU buffer, taken under the lock. -/
def get_cpu_history (st : ProfilerState) : List ℚ × List (String × List ℚ) :=
  (st.timePoints, st.cpuHist)

/-- `SystemProfiler.get_npu_history`. -/
def get_npu_history (st : ProfilerState) : List ℚ × List ℚ :=
  (st.timePoints, st.npuHist)

/-- `SystemProfiler.get_mem_history`. -/
def get_mem_history (st : ProfilerState) : List ℚ × (List ℚ × List ℚ) :=
  (st.timePoints, (st.memAmt, st.memPct))

/-! ## Lemmas about bounded buffers -/

/-- Appending to a bounded buffer caps the length at the capacity. -/
lemma length_pushBounded (N : Nat) (buf : List ℚ) (x : ℚ) :
    (pushBounded N buf x).length = min N (buf.length + 1) := by
  simp only [pushBounded, List.length_drop, List.length_append, List.length_singleton]
  omega

/-- A fold of bounded appends keeps exactly the last `N` appended elements
(provided the accumulator is within capacity). -/
lemma foldl_pushBounded (N : Nat) (xs : List ℚ) :
    ∀ acc : List ℚ, acc.length ≤ N →
      List.foldl (pushBounded N) acc xs = (acc ++ xs).drop (acc.length + xs.length - N) := by
  induction xs with
  | nil =>
      intro acc h
      simp only [List.foldl_nil, List.append_nil, List.length_nil, Nat.add_zero]
      rw [Nat.sub_eq_zero_of_le h, List.drop_zero]
  | cons x xs ih =>
      intro acc h
      have hlen : (pushBounded N acc x).length ≤ N := by rw [length_pushBounded]; omega
      rw [List.foldl_cons, ih (pushBounded N acc x) hlen]
      show ((acc ++ [x]).drop (acc.length + 1 - N) ++ xs).drop
          (((acc ++ [x]).drop (acc.length + 1 - N)).length + xs.length - N) =
        (acc ++ x :: xs).drop (acc.length + (x :: xs).length - N)
      rw [← List.drop_append_of_le_length (by simp)]
      rw [List.drop_drop]
      rw [show acc ++ x :: xs = (acc ++ [x]) ++ xs from by simp]
      congr 1
      simp only [List.length_drop, List.length_append, List.length_singleton, List.length_cons,
        List.length_nil, length_pushBounded]
      omega

/-! ## C4 -/

/-- C4: every history buffer with capacity `N` (a `deque(maxlen = N)` fed
by repeated `append`, modelled by `pushBounded N`) never exceeds length
`N`; and after `N + k` appended samples (`k ≥ 1`) it has length exactly
`N` and holds exactly the `k`-th through `(N+k-1)`-th appended samples
(0-based) in insertion order — the oldest were evicted first. -/
theorem C4_history_capacity_fifo (N k : Nat) (xs : List ℚ) :
    (List.foldl (pushBounded N) [] xs).length ≤ N ∧
    (1 ≤ k → xs.length = N + k →
      List.foldl (pushBounded N) [] xs = xs.drop k ∧
      (List.foldl (pushBounded N) [] xs).length = N) := by
  have hf := foldl_pushBounded N xs [] (by simp)
  simp only [List.nil_append, List.length_nil, Nat.zero_add] at hf
  refine ⟨?_, fun hk hlen => ?_⟩
  · rw [hf, List.length_drop]; omega
  · have hdrop : xs.length - N = k := by omega
    rw [hf, hdrop]
    exact ⟨rfl, by rw [List.length_drop]; omega⟩

/-- Witness for C4 at `N = 2`, `k = 1`, samples `[1, 2, 3]`: the buffer
holds `[2, 3]`, the oldest sample `1` was evicted. -/
theorem C4_history_capacity_fifo_w :
    1 ≤ 1 ∧ ([1, 2, 3] : List ℚ).length = 2 + 1 ∧
    List.foldl (pushBounded 2) [] ([1, 2, 3] : List ℚ) = ([1, 2, 3] : List ℚ).drop 1 ∧
    (List.foldl (pushBounded 2) [] ([1, 2, 3] : List ℚ)).length = 2 := by
  have h := (C4_history_capacity_fifo 2 1 [1, 2, 3]).2 (by decide) (by decide)
  exact ⟨by decide, by decide, h.1, h.2⟩

/-! ## C3 -/

/-- C3: `remote_command_runner_factory` classifies by exact full-string
match: no address gives the default ADB device `"SL16x0"`; a full match of
the device-identifier pattern `^SL16x\d+$` gives the ADB (debug-bridge)
runner for that identifier; a full match of the dotted-quad IPv4 pattern
gives the SSH (network-shell) runner; anything else is a configuration
error naming the malformed address. -/
theorem C3_factory_classification (t : Int) (a : String) :
    remote_command_runner_factory none t = .ok (.adb "SL16x0" t) ∧
    (isAdbDeviceId a = true →
      remote_command_runner_factory (some a) t = .ok (.adb a t)) ∧
    (isAdbDeviceId a = false → isIPv4Address a = true →
      remote_command_runner_factory (some a) t = .ok (.ssh a t)) ∧
    (isAdbDeviceId a = false → isIPv4Address a = false →
      remote_command_runner_factory (some a) t =
        .error ("Invalid board address format: expected ADB device ID or IPv4 address, got "
          ++ a)) := by
  refine ⟨rfl, fun h1 => ?_, fun h1 h2 => ?_, fun h1 h2 => ?_⟩ <;>
    simp [remote_command_runner_factory, h1] <;>
    exact h2

/-- Witness for C3: the spec's four examples, plus strings containing a
pattern only as a proper substring, which are rejected. -/
theorem C3_factory_classification_w :
    remote_command_runner_factory (some "SL16x0") 5 = .ok (.adb "SL16x0" 5) ∧
    remote_command_runner_factory (some "192.168.1.10") 5 = .ok (.ssh "192.168.1.10" 5) ∧
    remote_command_runner_factory none 5 = .ok (.adb "SL16x0" 5) ∧
    remote_command_runner_factory (some "not-an-address") 5 =
      .error ("Invalid board address format: expected ADB device ID or IPv4 address, got "
        ++ "not-an-address") ∧
    remote_command_runner_factory (some "xSL16x0") 5 =
      .error ("Invalid board address format: expected ADB device ID or IPv4 address, got "
        ++ "xSL16x0") ∧
    remote_command_runner_factory (some "192.168.1.10x") 5 =
      .error ("Invalid board address format: expected ADB device ID or IPv4 address, got "
        ++ "192.168.1.10x") :=
  ⟨(C3_factory_classification 5 "SL16x0").2.1 (by decide),
   (C3_factory_classification 5 "192.168.1.10").2.2.1 (by decide) (by decide),
   (C3_factory_classification 5 "x").1,
   (C3_factory_classification 5 "not-an-address").2.2.2 (by decide) (by decide),
   (C3_factory_classification 5 "xSL16x0").2.2.2 (by decide) (by decide),
   (C3_factory_classification 5 "192.168.1.10x").2.2.2 (by decide) (by decide)⟩

/-! ## C6 -/

/-- C6: for every command containing one of the shell metacharacters
`| ; || ` $( < >`, the ADB runner's `runCmd` fails with a
`RemoteCommandError` carrying the command and the diagnostic text, and
executes no remote invocation (the recorded segment list is empty),
whatever the remote oracle would do. -/
theorem C6_adb_metachar_rejection
    (exec : String → Except RemoteCommandError String) (cmd : String)
    (h : hasUnsupportedSyntax cmd = true) :
    ADBCommandRunner.runCmd exec cmd =
      (.error ⟨cmd, "Unsupported shell syntax in ADB runner."⟩, []) := by
  simp [ADBCommandRunner.runCmd, h]

/-- Witness for C6: one command per metacharacter, each rejected with no
remote invocation, under an oracle that would succeed on anything. -/
theorem C6_adb_metachar_rejection_w :
    ADBCommandRunner.runCmd (fun s => .ok s) "cat a | cat b" =
      (.error ⟨"cat a | cat b", "Unsupported shell syntax in ADB runner."⟩, []) ∧
    ADBCommandRunner.runCmd (fun s => .ok s) "cat a; cat b" =
      (.error ⟨"cat a; cat b", "Unsupported shell syntax in ADB runner."⟩, []) ∧
    ADBCommandRunner.runCmd (fun s => .ok s) "cat `x`" =
      (.error ⟨"cat `x`", "Unsupported shell syntax in ADB runner."⟩, []) ∧
    ADBCommandRunner.runCmd (fun s => .ok s) "cat $(x)" =
      (.error ⟨"cat $(x)", "Unsupported shell syntax in ADB runner."⟩, []) ∧
    ADBCommandRunner.runCmd (fun s => .ok s) "cat < x" =
      (.error ⟨"cat < x", "Unsupported shell syntax in ADB runner."⟩, []) ∧
    ADBCommandRunner.runCmd (fun s => .ok s) "cat > x" =
      (.error ⟨"cat > x", "Unsupported shell syntax in ADB runner."⟩, []) :=
  ⟨C6_adb_metachar_rejection _ _ (by decide), C6_adb_metachar_rejection _ _ (by decide),
   C6_adb_metachar_rejection _ _ (by decide), C6_adb_metachar_rejection _ _ (by decide),
   C6_adb_metachar_rejection _ _ (by decide), C6_adb_metachar_rejection _ _ (by decide)⟩

/-! ## C7 -/

/-- When every segment succeeds, `runSegments` executes all segments in
order and collects their outputs in order. -/
lemma runSegments_ok (ex : String → String) :
    ∀ ps : List String, runSegments (fun s => .ok (ex s)) ps = (.ok (ps.map ex), ps) := by
  intro ps
  induction ps with
  | nil => rfl
  | cons p ps ih => simp [runSegments, ih]

/-- C7: for every accepted command (no denylisted metacharacter), the ADB
runner splits on the literal `"&&"`, strips each segment, executes each
segment as a separate remote invocation in order, and returns the
per-segment outputs joined with `"\n"` in the same order. -/
theorem C7_adb_split_join (ex : String → String) (cmd : String)
    (h : hasUnsupportedSyntax cmd = false) :
    ADBCommandRunner.runCmd (fun s => .ok (ex s)) cmd =
      (.ok (String.intercalate "\n" (((pySplitOn cmd "&&").map pyStrip).map ex)),
       (pySplitOn cmd "&&").map pyStrip) := by
  simp [ADBCommandRunner.runCmd, h, runSegments_ok, Except.map]

/-- Witness for C7: `"head -n 5 /proc/stat && cat /x"` is split into two
stripped segments, each executed separately (here the oracle echoes its
segment), and the outputs are joined with a newline in segment order. -/
theorem C7_adb_split_join_w :
    hasUnsupportedSyntax "head -n 5 /proc/stat && cat /x" = false ∧
    ADBCommandRunner.runCmd (fun s => .ok s) "head -n 5 /proc/stat && cat /x" =
      (.ok "head -n 5 /proc/stat\ncat /x", ["head -n 5 /proc/stat", "cat /x"]) :=
  ⟨by decide,
   (C7_adb_split_join (fun s => s) "head -n 5 /proc/stat && cat /x" (by decide)).trans
     (by decide)⟩

/-! ## C8 -/

/-- C8: for every raw telemetry text with fewer than 7 non-blank lines,
`parse_stats` fails with the too-few-lines parse error instead of
returning a partial sample. -/
theorem C8_parse_too_few_lines (raw : String)
    (h : (nonBlankLines raw).length < 7) :
    parse_stats raw = .error (.tooFewLines (nonBlankLines raw).length) := by
  simp [parse_stats, parse_statsAux, h]

/-- Witness for C8: an input with only 3 non-blank lines is rejected. -/
theorem C8_parse_too_few_lines_w :
    (nonBlankLines "cpu 1 2 3\n\ncpu0 4 5 6\n524288").length < 7 ∧
    parse_stats "cpu 1 2 3\n\ncpu0 4 5 6\n524288" = .error (.tooFewLines 3) :=
  ⟨by decide,
   (C8_parse_too_few_lines "cpu 1 2 3\n\ncpu0 4 5 6\n524288" (by decide)).trans (by decide)⟩

/-! ## C9 -/

/-- C9: on a tick with no previous sample, no value is appended to any
history buffer (timestamps, per-label CPU, NPU, memory all unchanged — in
particular they stay empty on the first tick of a fresh profiler), while
the previous-sample cache is unconditionally replaced with the current
parsed sample and its timestamp. -/
theorem C9_first_tick_seeds_cache (st : ProfilerState) (curr : RawStats) (ts : ℚ)
    (h : st.prev = none) :
    (tick st curr ts).timePoints = st.timePoints ∧
    (tick st curr ts).cpuHist = st.cpuHist ∧
    (tick st curr ts).npuHist = st.npuHist ∧
    (tick st curr ts).memAmt = st.memAmt ∧
    (tick st curr ts).memPct = st.memPct ∧
    (tick st curr ts).prev = some (curr, ts) := by
  simp [tick, h]

/-- Witness for C9: the first tick of a fresh profiler leaves every buffer
empty and seeds the cache. -/
theorem C9_first_tick_seeds_cache_w :
    (tick (initState 100 4) ⟨[("cpu", [1, 1, 1, 1, 1, 0, 0])], 1, 0⟩ 0).timePoints = [] ∧
    (tick (initState 100 4) ⟨[("cpu", [1, 1, 1, 1, 1, 0, 0])], 1, 0⟩ 0).cpuHist = [] ∧
    (tick (initState 100 4) ⟨[("cpu", [1, 1, 1, 1, 1, 0, 0])], 1, 0⟩ 0).npuHist = [] ∧
    (tick (initState 100 4) ⟨[("cpu", [1, 1, 1, 1, 1, 0, 0])], 1, 0⟩ 0).memAmt = [] ∧
    (tick (initState 100 4) ⟨[("cpu", [1, 1, 1, 1, 1, 0, 0])], 1, 0⟩ 0).memPct = [] ∧
    (tick (initState 100 4) ⟨[("cpu", [1, 1, 1, 1, 1, 0, 0])], 1, 0⟩ 0).prev =
      some (⟨[("cpu", [1, 1, 1, 1, 1, 0, 0])], 1, 0⟩, 0) :=
  C9_first_tick_seeds_cache (initState 100 4) ⟨[("cpu", [1, 1, 1, 1, 1, 0, 0])], 1, 0⟩ 0 rfl

/-! ## C1 -/

/-- With counter sequences of equal length, the zipped per-category delta
sum is the difference of the total counter sums. -/
lemma totalDelta_eq_sum_sub (p : List Int) :
    ∀ c : List Int, p.length = c.length → totalDelta p c = c.sum - p.sum := by
  induction p with
  | nil =>
      intro c h
      cases c with
      | nil => rfl
      | cons b c => simp at h
  | cons a p ih =>
      intro c h
      cases c with
      | nil => simp at h
      | cons b c =>
          simp only [List.length_cons, Nat.succ.injEq] at h
          simp only [totalDelta, List.zip_cons_cons, List.map_cons, List.sum_cons] at *
          rw [ih c h]
          ring

/-- C1: for every pair of previous/current counter sequences, the computed
CPU usage equals `100 * (1 - idleDelta / totalDelta)` when
`totalDelta > 0` and is `0` when `totalDelta ≤ 0`; `totalDelta` is the sum
of the per-category deltas (over all categories, when the sequences have
equal length) and `idleDelta` the delta of the idle and io-wait
categories; and whenever `totalDelta > 0` and
`idleDelta ∈ [0, totalDelta]` the result lies in `[0, 100]`. -/
theorem C1_cpu_usage_formula (p c : List Int) :
    (0 < totalDelta p c →
      cpuUsageOne p c = 100 * (1 - (idleDelta p c : ℚ) / (totalDelta p c : ℚ))) ∧
    (totalDelta p c ≤ 0 → cpuUsageOne p c = 0) ∧
    (p.length = c.length → totalDelta p c = c.sum - p.sum) ∧
    (0 < totalDelta p c → 0 ≤ idleDelta p c → idleDelta p c ≤ totalDelta p c →
      0 ≤ cpuUsageOne p c ∧ cpuUsageOne p c ≤ 100) := by
  refine ⟨fun h => by rw [cpuUsageOne, if_pos h], fun h => by rw [cpuUsageOne, if_neg (by omega)],
    totalDelta_eq_sum_sub p c, fun ht hi0 hit => ?_⟩
  have htq : (0 : ℚ) < (totalDelta p c : ℚ) := by exact_mod_cast ht
  have hi0q : (0 : ℚ) ≤ (idleDelta p c : ℚ) := by exact_mod_cast hi0
  have hitq : (idleDelta p c : ℚ) ≤ (totalDelta p c : ℚ) := by exact_mod_cast hit
  have hq0 : (0 : ℚ) ≤ (idleDelta p c : ℚ) / (totalDelta p c : ℚ) :=
    div_nonneg hi0q (le_of_lt htq)
  have hq1 : (idleDelta p c : ℚ) / (totalDelta p c : ℚ) ≤ 1 :=
    (div_le_one htq).mpr hitq
  rw [cpuUsageOne, if_pos ht]
  constructor <;> linarith

/-- Witness for C1 at `prev = [1,1,1,1,1,0,0]`, `curr = [2,2,2,2,2,0,0]`:
`totalDelta = 5 > 0`, `idleDelta = 2 ∈ [0, 5]`, so the formula applies and
the result is within `[0, 100]`. -/
theorem C1_cpu_usage_formula_w :
    0 < totalDelta [1, 1, 1, 1, 1, 0, 0] [2, 2, 2, 2, 2, 0, 0] ∧
    0 ≤ idleDelta [1, 1, 1, 1, 1, 0, 0] [2, 2, 2, 2, 2, 0, 0] ∧
    idleDelta [1, 1, 1, 1, 1, 0, 0] [2, 2, 2, 2, 2, 0, 0] ≤
      totalDelta [1, 1, 1, 1, 1, 0, 0] [2, 2, 2, 2, 2, 0, 0] ∧
    totalDelta [1, 1, 1, 1, 1, 0, 0] [2, 2, 2, 2, 2, 0, 0] =
      ([2, 2, 2, 2, 2, 0, 0] : List Int).sum - ([1, 1, 1, 1, 1, 0, 0] : List Int).sum ∧
    cpuUsageOne [1, 1, 1, 1, 1, 0, 0] [2, 2, 2, 2, 2, 0, 0] =
      100 * (1 - (idleDelta [1, 1, 1, 1, 1, 0, 0] [2, 2, 2, 2, 2, 0, 0] : ℚ) /
        (totalDelta [1, 1, 1, 1, 1, 0, 0] [2, 2, 2, 2, 2, 0, 0] : ℚ)) ∧
    0 ≤ cpuUsageOne [1, 1, 1, 1, 1, 0, 0] [2, 2, 2, 2, 2, 0, 0] ∧
    cpuUsageOne [1, 1, 1, 1, 1, 0, 0] [2, 2, 2, 2, 2, 0, 0] ≤ 100 := by
  have h := C1_cpu_usage_formula [1, 1, 1, 1, 1, 0, 0] [2, 2, 2, 2, 2, 0, 0]
  have hb := h.2.2.2 (by decide) (by decide) (by decide)
  exact ⟨by decide, by decide, by decide, h.2.2.1 (by decide), h.1 (by decide), hb.1, hb.2⟩

/-! ## C5 -/

/-- C5: on every delta-producing tick the value appended to the NPU
history is `100 * Δinfer_time_us / (Δt_s * 1_000_000)` clamped into
`[0, 100]`; and the clamped value always lies within `[0, 100]`, whatever
the raw ratio (negative on counter wraparound, or above 100). -/
theorem C5_npu_clamped (st : ProfilerState) (p : RawStats) (pts : ℚ)
    (curr : RawStats) (ts : ℚ) (h : st.prev = some (p, pts)) :
    (tick st curr ts).npuHist =
      pushBounded st.historyLength st.npuHist
        (npuUsageVal p.inferTimeUs curr.inferTimeUs (ts - pts)) ∧
    ∀ (pu cu : Int) (dt : ℚ),
      npuUsageVal pu cu dt =
        min (max 0 (100 * ((cu : ℚ) - (pu : ℚ)) / (dt * 1000000))) 100 ∧
      0 ≤ npuUsageVal pu cu dt ∧ npuUsageVal pu cu dt ≤ 100 := by
  refine ⟨by simp [tick, h], fun pu cu dt => ⟨rfl, ?_, min_le_right _ _⟩⟩
  exact le_min (le_max_left 0 _) (by norm_num)

/-- Witness for C5: a state with a cached previous sample; the appended
NPU value for a wrapped-around counter (`Δ = -1000000` over 1 s) is the
clamped `0`, and the clamp bounds hold at that input. -/
theorem C5_npu_clamped_w :
    (tick ⟨10, 4, [], [], [], [], [], some (⟨[], 1, 1000000⟩, 0)⟩ ⟨[], 1, 0⟩ 1).npuHist =
      pushBounded 10 [] (npuUsageVal 1000000 0 (1 - 0)) ∧
    0 ≤ npuUsageVal 1000000 0 (1 - 0) ∧ npuUsageVal 1000000 0 (1 - 0) ≤ 100 := by
  have h := C5_npu_clamped ⟨10, 4, [], [], [], [], [], some (⟨[], 1, 1000000⟩, 0)⟩
    ⟨[], 1, 1000000⟩ 0 ⟨[], 1, 0⟩ 1 rfl
  exact ⟨h.1, (h.2 1000000 0 (1 - 0)).2.1, (h.2 1000000 0 (1 - 0)).2.2⟩

/-! ## C2 -/

/-- The labels produced by `compute_cpu_usage` are exactly the labels of
the previous sample, in order. -/
lemma compute_cpu_usage_labels (prev curr : List (String × List Int)) :
    (compute_cpu_usage prev curr).map Prod.fst = prev.map Prod.fst := by
  simp [compute_cpu_usage]

/-- Appending under a label different from the head leaves the head
entry untouched. -/
lemma appendOne_cons_ne (N : Nat) (lh : String) (b : List ℚ)
    (hs : List (String × List ℚ)) (label : String) (v : ℚ)
    (h : (lh == label) = false) :
    appendOne N ((lh, b) :: hs) label v = (lh, b) :: appendOne N hs label v := by
  have hne : lh ≠ label := by simpa using h
  by_cases hmem : hs.any (fun e => e.1 == label)
  · simp [appendOne, h, hmem, hne]
  · simp only [Bool.not_eq_true] at hmem
    simp [appendOne, h, hmem, hne]

/-- A head entry whose label occurs in none of the usage updates is left
untouched by the whole update loop. -/
lemma appendCpu_cons_notmem (N : Nat) (lh : String) (b : List ℚ) :
    ∀ (usage : List (String × ℚ)) (hs : List (String × List ℚ)),
      (∀ lv ∈ usage, (lh == lv.1) = false) →
      appendCpu N ((lh, b) :: hs) usage = (lh, b) :: appendCpu N hs usage := by
  intro usage
  induction usage with
  | nil => intro hs _; rfl
  | cons lv us ih =>
      intro hs h
      show appendCpu N (appendOne N ((lh, b) :: hs) lv.1 lv.2) us = _
      rw [appendOne_cons_ne N lh b hs lv.1 lv.2 (h lv (by simp))]
      exact ih (appendOne N hs lv.1 lv.2) (fun x hx => h x (by simp [hx]))

/-- Appending under the head label updates exactly the head entry when no
tail entry shares its label. -/
lemma appendOne_head (N : Nat) (l : String) (b : List ℚ)
    (hs : List (String × List ℚ)) (v : ℚ)
    (hnot : ∀ e ∈ hs, (e.1 == l) = false) :
    appendOne N ((l, b) :: hs) l v = (l, pushBounded N b v) :: hs := by
  have hany : (((l, b) :: hs).any (fun e => e.1 == l)) = true := by simp
  have hmap : hs.map (fun e => if e.1 == l then (e.1, pushBounded N e.2 v) else e) = hs :=
    (List.map_congr_left (fun e he => by simp [hnot e he])).trans (List.map_id hs)
  simp only [appendOne, hany, if_true, List.map_cons, beq_self_eq_true, hmap]

/-- Updating a history whose labels coincide (in order, without
duplicates) with the usage labels pushes one value onto every buffer:
labels are preserved and every buffer length goes from `m` to
`min N (m + 1)`. -/
lemma appendCpu_aligned (N : Nat) (m : Nat) :
    ∀ (usage : List (String × ℚ)) (hist : List (String × List ℚ)),
      hist.map Prod.fst = usage.map Prod.fst →
      (usage.map Prod.fst).Nodup →
      (∀ e ∈ hist, e.2.length = m) →
      (appendCpu N hist usage).map Prod.fst = hist.map Prod.fst ∧
      ∀ e ∈ appendCpu N hist usage, e.2.length = min N (m + 1) := by
  intro usage
  induction usage with
  | nil =>
      intro hist hl _ _
      simp only [List.map_nil, List.map_eq_nil_iff] at hl
      subst hl
      exact ⟨rfl, by simp [appendCpu]⟩
  | cons lv us ih =>
      intro hist hl hnd hm
      cases hist with
      | nil => simp at hl
      | cons e hs =>
          obtain ⟨l, b⟩ := e
          simp only [List.map_cons, List.cons.injEq] at hl
          obtain ⟨hfst, htl⟩ := hl
          simp only [List.map_cons, List.nodup_cons] at hnd
          obtain ⟨hnotin, hndtl⟩ := hnd
          subst hfst
          have hnothd : ∀ x ∈ hs, (x.1 == lv.1) = false := by
            intro x hx
            have hx1 : x.1 ∈ us.map Prod.fst := htl ▸ (List.mem_map_of_mem Prod.fst hx)
            simp only [beq_eq_false_iff_ne, ne_eq]
            exact fun hcontra => hnotin (hcontra ▸ hx1)
          have hstep : appendCpu N ((lv.1, b) :: hs) (lv :: us) =
              (lv.1, pushBounded N b lv.2) :: appendCpu N hs us := by
            show appendCpu N (appendOne N ((lv.1, b) :: hs) lv.1 lv.2) us = _
            rw [appendOne_head N lv.1 b hs lv.2 hnothd]
            exact appendCpu_cons_notmem N lv.1 _ us hs
              (fun x hx => by
                simp only [beq_eq_false_iff_ne, ne_eq]
                exact fun hcontra => hnotin (hcontra ▸ List.mem_map_of_mem Prod.fst hx))
          have hIH := ih hs htl hndtl (fun x hx => hm x (by simp [hx]))
          rw [hstep]
          constructor
          · simp only [List.map_cons, hIH.1]
          · intro x hx
            rcases List.mem_cons.mp hx with hx1 | hx2
            · subst hx1
              simp only
              rw [length_pushBounded, hm (lv.1, b) (by simp)]
            · exact hIH.2 x hx2

/-- Lazily creating the per-label buffers from an empty history gives one
entry per usage label (in order), each holding a single pushed value. -/
lemma appendCpu_fresh (N : Nat) :
    ∀ usage : List (String × ℚ), (usage.map Prod.fst).Nodup →
      (appendCpu N [] usage).map Prod.fst = usage.map Prod.fst ∧
      ∀ e ∈ appendCpu N [] usage, e.2.length = min N 1 := by
  intro usage
  induction usage with
  | nil => exact fun _ => ⟨rfl, by simp [appendCpu]⟩
  | cons lv us ih =>
      intro hnd
      simp only [List.map_cons, List.nodup_cons] at hnd
      obtain ⟨hnotin, hndtl⟩ := hnd
      have hstep : appendCpu N [] (lv :: us) =
          (lv.1, pushBounded N [] lv.2) :: appendCpu N [] us := by
        show appendCpu N (appendOne N [] lv.1 lv.2) us = _
        have h1 : appendOne N [] lv.1 lv.2 = [(lv.1, pushBounded N [] lv.2)] := by
          simp [appendOne]
        rw [h1]
        exact appendCpu_cons_notmem N lv.1 _ us []
          (fun x hx => by
            simp only [beq_eq_false_iff_ne, ne_eq]
            exact fun hc => hnotin (hc ▸ List.mem_map_of_mem Prod.fst hx))
      have hIH := ih hndtl
      rw [hstep]
      refine ⟨by simp only [List.map_cons, hIH.1], ?_⟩
      intro x hx
      rcases List.mem_cons.mp hx with hx1 | hx2
      · subst hx1
        simp only
        rw [length_pushBounded]
        simp
      · exact hIH.2 x hx2

/-- All metric buffers have the same length as the shared timestamp
buffer. -/
def buffersAligned (st : ProfilerState) : Prop :=
  st.npuHist.length = st.timePoints.length ∧
  st.memAmt.length = st.timePoints.length ∧
  st.memPct.length = st.timePoints.length ∧
  ∀ e ∈ st.cpuHist, e.2.length = st.timePoints.length

/-- Label bookkeeping for runs whose samples all carry the per-core label
list `L`: the per-label history is either still empty (before the first
delta tick) or keyed exactly by `L`; the cached previous sample (if any)
carries labels `L`. -/
def labelsInv (L : List String) (st : ProfilerState) : Prop :=
  (st.cpuHist.map Prod.fst = L ∨ (st.cpuHist = [] ∧ st.timePoints = [])) ∧
  ∀ pr ∈ st.prev, pr.1.cpu.map Prod.fst = L

/-- One tick preserves buffer alignment and the label invariant, provided
the incoming sample carries the same label list. -/
lemma tick_preserves (L : List String) (hnd : L.Nodup) (st : ProfilerState)
    (curr : RawStats) (ts : ℚ) (hc : curr.cpu.map Prod.fst = L)
    (hA : buffersAligned st) (hL : labelsInv L st) :
    buffersAligned (tick st curr ts) ∧ labelsInv L (tick st curr ts) := by
  obtain ⟨hnpu, hma, hmp, hcpu⟩ := hA
  obtain ⟨hlab, hprev⟩ := hL
  cases hp : st.prev with
  | none =>
      have ht : tick st curr ts = { st with prev := some (curr, ts) } := by
        simp only [tick, hp]
      rw [ht]
      refine ⟨⟨hnpu, hma, hmp, hcpu⟩, ⟨hlab, ?_⟩⟩
      intro pr hpr
      simp only [Option.mem_def, Option.some.injEq] at hpr
      rw [← hpr]
      exact hc
  | some pr =>
      obtain ⟨p, pts⟩ := pr
      have hpl : p.cpu.map Prod.fst = L := hprev (p, pts) (by simp [hp])
      have husage : (compute_cpu_usage p.cpu curr.cpu).map Prod.fst = L := by
        rw [compute_cpu_usage_labels, hpl]
      have hundup : ((compute_cpu_usage p.cpu curr.cpu).map Prod.fst).Nodup := by
        rw [husage]; exact hnd
      have ht_tp : (tick st curr ts).timePoints =
          pushBounded st.historyLength st.timePoints ts := by
        simp only [tick, hp]
      have ht_cpu : (tick st curr ts).cpuHist =
          appendCpu st.historyLength st.cpuHist (compute_cpu_usage p.cpu curr.cpu) := by
        simp only [tick, hp]
      have ht_npu : (tick st curr ts).npuHist =
          pushBounded st.historyLength st.npuHist
            (npuUsageVal p.inferTimeUs curr.inferTimeUs (ts - pts)) := by
        simp only [tick, hp]
      have ht_ma : (tick st curr ts).memAmt =
          pushBounded st.historyLength st.memAmt (st.totalMemGB - curr.memAvailableGB) := by
        simp only [tick, hp]
      have ht_mp : (tick st curr ts).memPct =
          pushBounded st.historyLength st.memPct
            ((st.totalMemGB - curr.memAvailableGB) / st.totalMemGB * 100) := by
        simp only [tick, hp]
      have ht_prev : (tick st curr ts).prev = some (curr, ts) := by
        simp only [tick, hp]
      refine ⟨⟨?_, ?_, ?_, ?_⟩, ⟨?_, ?_⟩⟩
      · rw [ht_npu, ht_tp]
        simp only [length_pushBounded, hnpu]
      · rw [ht_ma, ht_tp]
        simp only [length_pushBounded, hma]
      · rw [ht_mp, ht_tp]
        simp only [length_pushBounded, hmp]
      · rw [ht_cpu, ht_tp]
        rcases hlab with hlab | ⟨hnil, htp⟩
        · have halign := appendCpu_aligned st.historyLength st.timePoints.length
            (compute_cpu_usage p.cpu curr.cpu) st.cpuHist
            (by rw [hlab, husage]) hundup hcpu
          intro e he
          rw [halign.2 e he, length_pushBounded]
        · have hfresh := appendCpu_fresh st.historyLength
            (compute_cpu_usage p.cpu curr.cpu) hundup
          rw [hnil, htp]
          intro e he
          rw [hfresh.2 e he, length_pushBounded]
          simp
      · left
        rw [ht_cpu]
        rcases hlab with hlab | ⟨hnil, _⟩
        · have halign := appendCpu_aligned st.historyLength st.timePoints.length
            (compute_cpu_usage p.cpu curr.cpu) st.cpuHist
            (by rw [hlab, husage]) hundup hcpu
          rw [halign.1, hlab]
        · have hfresh := appendCpu_fresh st.historyLength
            (compute_cpu_usage p.cpu curr.cpu) hundup
          rw [hnil, hfresh.1, husage]
      · intro pr2 hpr2
        rw [ht_prev] at hpr2
        simp only [Option.mem_def, Option.some.injEq] at hpr2
        rw [← hpr2]
        exact hc

/-- The whole-run invariant: alignment and label bookkeeping survive every
poll tick of a run over samples sharing one label list. -/
lemma runTicks_inv (L : List String) (hnd : L.Nodup) :
    ∀ (samples : List (RawStats × ℚ)) (st : ProfilerState),
      (∀ s ∈ samples, s.1.cpu.map Prod.fst = L) →
      buffersAligned st → labelsInv L st →
      buffersAligned (runTicks st samples) ∧ labelsInv L (runTicks st samples) := by
  intro samples
  induction samples with
  | nil => exact fun st _ hA hL => ⟨hA, hL⟩
  | cons s ss ih =>
      intro st hs hA hL
      have hstep := tick_preserves L hnd st s.1 s.2 (hs s (by simp)) hA hL
      exact ih (tick st s.1 s.2) (fun x hx => hs x (by simp [hx])) hstep.1 hstep.2

/-- C2 (amended): after every completed poll tick of a run in which every
sample reports the same per-core label list `L` (as in normal operation,
where the first five `/proc/stat` lines are fixed), all history buffers —
the shared timestamp buffer, every per-label CPU buffer, the NPU buffer
and both memory buffers — have equal length, and the three read accessors
(each an atomic copy under the lock, modelled as a read of the post-tick
state) observe only equal-length buffers.  Without the constant-label-set
proviso the original claim is false: see the counterexample, where a label
first observed after the first delta tick yields a shorter lazily created
buffer. -/
theorem C2_buffer_alignment_amended (L : List String) (hnd : L.Nodup)
    (samples : List (RawStats × ℚ))
    (hs : ∀ s ∈ samples, s.1.cpu.map Prod.fst = L) (N : Nat) (tm : ℚ) :
    buffersAligned (runTicks (initState N tm) samples) ∧
    (∀ e ∈ (get_cpu_history (runTicks (initState N tm) samples)).2,
      e.2.length = (get_cpu_history (runTicks (initState N tm) samples)).1.length) ∧
    (get_npu_history (runTicks (initState N tm) samples)).2.length =
      (get_npu_history (runTicks (initState N tm) samples)).1.length ∧
    (get_mem_history (runTicks (initState N tm) samples)).2.1.length =
      (get_mem_history (runTicks (initState N tm) samples)).1.length ∧
    (get_mem_history (runTicks (initState N tm) samples)).2.2.length =
      (get_mem_history (runTicks (initState N tm) samples)).1.length := by
  have hA : buffersAligned (runTicks (initState N tm) samples) :=
    (runTicks_inv L hnd samples (initState N tm) hs
      ⟨rfl, rfl, rfl, by simp [initState]⟩
      ⟨Or.inr ⟨rfl, rfl⟩, by simp [initState]⟩).1
  exact ⟨hA, hA.2.2.2, hA.1, hA.2.1, hA.2.2.1⟩

/-- Witness for C2 (amended): a three-tick run whose samples all carry the
single label `"cpu"`; every buffer ends with the same length. -/
theorem C2_buffer_alignment_amended_w :
    (["cpu"] : List String).Nodup ∧
    (∀ s ∈ [((⟨[("cpu", [1, 1, 1, 1, 1, 0, 0])], 1, 0⟩ : RawStats), (0 : ℚ)),
            (⟨[("cpu", [2, 2, 2, 2, 2, 0, 0])], 1, 0⟩, 1),
            (⟨[("cpu", [3, 3, 3, 3, 3, 0, 0])], 1, 0⟩, 2)],
      s.1.cpu.map Prod.fst = ["cpu"]) ∧
    buffersAligned (runTicks (initState 2 4)
      [((⟨[("cpu", [1, 1, 1, 1, 1, 0, 0])], 1, 0⟩ : RawStats), (0 : ℚ)),
       (⟨[("cpu", [2, 2, 2, 2, 2, 0, 0])], 1, 0⟩, 1),
       (⟨[("cpu", [3, 3, 3, 3, 3, 0, 0])], 1, 0⟩, 2)]) :=
  ⟨by decide, by decide,
   (C2_buffer_alignment_amended ["cpu"] (by decide) _ (by decide) 2 4).1⟩

/-- C2 counterexample: the claim as stated fails on a run where the label
`"cpu1"` is first observed on the second sample, hence first appended on
the third tick: the reader's CPU accessor then sees a timestamp buffer of
length 2 but a `"cpu1"` buffer of length 1. -/
theorem C2_buffer_alignment_cex :
    (get_cpu_history (runTicks (initState 100 4)
      [((⟨[("cpu", [1, 1, 1, 1, 1, 0, 0])], 1, 0⟩ : RawStats), (0 : ℚ)),
       (⟨[("cpu", [2, 2, 2, 2, 2, 0, 0]), ("cpu1", [1, 1, 1, 1, 1, 0, 0])], 1, 0⟩, 1),
       (⟨[("cpu", [3, 3, 3, 3, 3, 0, 0]), ("cpu1", [2, 2, 2, 2, 2, 0, 0])], 1, 0⟩, 2)])).1.length
      = 2 ∧
    ((get_cpu_history (runTicks (initState 100 4)
      [((⟨[("cpu", [1, 1, 1, 1, 1, 0, 0])], 1, 0⟩ : RawStats), (0 : ℚ)),
       (⟨[("cpu", [2, 2, 2, 2, 2, 0, 0]), ("cpu1", [1, 1, 1, 1, 1, 0, 0])], 1, 0⟩, 1),
       (⟨[("cpu", [3, 3, 3, 3, 3, 0, 0]), ("cpu1", [2, 2, 2, 2, 2, 0, 0])], 1, 0⟩, 2)])).2.map
      (fun e => (e.1, e.2.length))) = [("cpu", 2), ("cpu1", 1)] := by
  constructor <;> rfl

/-! ## C10 -/

/-- A CPU counter line parses to its first whitespace-separated token
paired with the remaining tokens read as integers. -/
lemma parseCpuLine_eq (l lab : String) (r : List String) (cs : List Int)
    (ht : tokens (pyStrip l) = lab :: r) (hc : optMapList pyInt r = some cs) :
    parseCpuLine l = some (lab, cs) := by
  simp [parseCpuLine, ht, hc]

/-- `parse_statsAux` reads only the first seven non-blank lines. -/
lemma parse_statsAux_take7 (ls : List String) (h : 7 ≤ ls.length) :
    parse_statsAux ls = parse_statsAux (ls.take 7) := by
  have hlen : (ls.take 7).length = 7 := by
    rw [List.length_take]; omega
  have h5 : (ls.take 7).take 5 = ls.take 5 := by
    rw [List.take_take]
    norm_num
  have hg5 : (ls.take 7).getD 5 "" = ls.getD 5 "" := by
    rw [List.getD_eq_getElem?_getD, List.getD_eq_getElem?_getD,
      List.getElem?_take_of_lt (by omega)]
  have hg6 : (ls.take 7).getD 6 "" = ls.getD 6 "" := by
    rw [List.getD_eq_getElem?_getD, List.getD_eq_getElem?_getD,
      List.getElem?_take_of_lt (by omega)]
  rw [parse_statsAux, parse_statsAux, if_neg (by omega), if_neg (by omega),
    h5, hg5, hg6]

/-- C10: for every raw text with at least 7 non-blank lines, `parse_stats`
reads exactly the first 5 non-blank lines as CPU counter lines (first
token of each mapped, with Python-dict semantics, to its remaining tokens
parsed as integers), the 6th as available memory in kB converted to GB by
dividing by 1048576, and the 7th as the cumulative inference time in µs;
non-blank lines after the 7th are ignored: any raw text with the same
first 7 non-blank lines parses identically. -/
theorem C10_parse_structure (raw l1 l2 l3 l4 l5 lab1 lab2 lab3 lab4 lab5 : String)
    (r1 r2 r3 r4 r5 : List String) (cs1 cs2 cs3 cs4 cs5 : List Int) (mem npu : Int)
    (h7 : 7 ≤ (nonBlankLines raw).length)
    (h5 : (nonBlankLines raw).take 5 = [l1, l2, l3, l4, l5])
    (ht1 : tokens (pyStrip l1) = lab1 :: r1) (hc1 : optMapList pyInt r1 = some cs1)
    (ht2 : tokens (pyStrip l2) = lab2 :: r2) (hc2 : optMapList pyInt r2 = some cs2)
    (ht3 : tokens (pyStrip l3) = lab3 :: r3) (hc3 : optMapList pyInt r3 = some cs3)
    (ht4 : tokens (pyStrip l4) = lab4 :: r4) (hc4 : optMapList pyInt r4 = some cs4)
    (ht5 : tokens (pyStrip l5) = lab5 :: r5) (hc5 : optMapList pyInt r5 = some cs5)
    (hmem : pyInt (pyStrip ((nonBlankLines raw).getD 5 "")) = some mem)
    (hnpu : pyInt (pyStrip ((nonBlankLines raw).getD 6 "")) = some npu) :
    parse_stats raw =
      .ok ⟨buildCpuDict [(lab1, cs1), (lab2, cs2), (lab3, cs3), (lab4, cs4), (lab5, cs5)],
           (mem : ℚ) / 1048576, npu⟩ ∧
    ∀ raw2 : String, 7 ≤ (nonBlankLines raw2).length →
      (nonBlankLines raw2).take 7 = (nonBlankLines raw).take 7 →
      parse_stats raw2 = parse_stats raw := by
  constructor
  · rw [parse_stats, parse_statsAux, if_neg (by omega), h5]
    rw [show (optMapList parseCpuLine [l1, l2, l3, l4, l5]) =
        some [(lab1, cs1), (lab2, cs2), (lab3, cs3), (lab4, cs4), (lab5, cs5)] from by
      simp [optMapList, parseCpuLine_eq l1 lab1 r1 cs1 ht1 hc1,
        parseCpuLine_eq l2 lab2 r2 cs2 ht2 hc2, parseCpuLine_eq l3 lab3 r3 cs3 ht3 hc3,
        parseCpuLine_eq l4 lab4 r4 cs4 ht4 hc4, parseCpuLine_eq l5 lab5 r5 cs5 ht5 hc5]]
    rw [hmem, hnpu]
  · intro raw2 h72 hsame
    rw [parse_stats, parse_stats, parse_statsAux_take7 _ h72,
      parse_statsAux_take7 _ h7, hsame]

/-- Witness for C10: a concrete 8-line telemetry text; the 8th non-blank
line is ignored, as shown by parsing the same text with one more trailing
line. -/
theorem C10_parse_structure_w :
    parse_stats
        "cpu 1 2 3 4 5 6 7\ncpu0 1 1 1 1 1 1 1\ncpu1 2 2 2 2 2 2 2\ncpu2 3 3 3 3 3 3 3\ncpu3 4 4 4 4 4 4 4\n1048576\n12345\nextra line" =
      .ok ⟨buildCpuDict [("cpu", [1, 2, 3, 4, 5, 6, 7]), ("cpu0", [1, 1, 1, 1, 1, 1, 1]),
            ("cpu1", [2, 2, 2, 2, 2, 2, 2]), ("cpu2", [3, 3, 3, 3, 3, 3, 3]),
            ("cpu3", [4, 4, 4, 4, 4, 4, 4])],
           ((1048576 : Int) : ℚ) / 1048576, 12345⟩ ∧
    parse_stats
        "cpu 1 2 3 4 5 6 7\ncpu0 1 1 1 1 1 1 1\ncpu1 2 2 2 2 2 2 2\ncpu2 3 3 3 3 3 3 3\ncpu3 4 4 4 4 4 4 4\n1048576\n12345\nextra line\nanother ignored line" =
      parse_stats
        "cpu 1 2 3 4 5 6 7\ncpu0 1 1 1 1 1 1 1\ncpu1 2 2 2 2 2 2 2\ncpu2 3 3 3 3 3 3 3\ncpu3 4 4 4 4 4 4 4\n1048576\n12345\nextra line" := by
  have h := C10_parse_structure
    "cpu 1 2 3 4 5 6 7\ncpu0 1 1 1 1 1 1 1\ncpu1 2 2 2 2 2 2 2\ncpu2 3 3 3 3 3 3 3\ncpu3 4 4 4 4 4 4 4\n1048576\n12345\nextra line"
    "cpu 1 2 3 4 5 6 7" "cpu0 1 1 1 1 1 1 1" "cpu1 2 2 2 2 2 2 2" "cpu2 3 3 3 3 3 3 3"
    "cpu3 4 4 4 4 4 4 4" "cpu" "cpu0" "cpu1" "cpu2" "cpu3"
    ["1", "2", "3", "4", "5", "6", "7"] ["1", "1", "1", "1", "1", "1", "1"]
    ["2", "2", "2", "2", "2", "2", "2"] ["3", "3", "3", "3", "3", "3", "3"]
    ["4", "4", "4", "4", "4", "4", "4"]
    [1, 2, 3, 4, 5, 6, 7] [1, 1, 1, 1, 1, 1, 1] [2, 2, 2, 2, 2, 2, 2] [3, 3, 3, 3, 3, 3, 3]
    [4, 4, 4, 4, 4, 4, 4] 1048576 12345
    (by decide) (by decide) (by decide) (by decide) (by decide) (by decide) (by decide)
    (by decide) (by decide) (by decide) (by decide) (by decide) (by decide) (by decide)
  exact ⟨h.1, h.2 _ (by decide) (by decide)⟩

end Astra
